import Mathlib

/-!
Verification of the palethea-launcher core (Rust sources under
`src-tauri/src/minecraft/` plus `src-tauri/src/lib.rs`) against its
natural-language specification.  Each Rust function relevant to the claims
is shallowly embedded as an executable Lean definition; file-system and
network effects are made explicit via state passing and function-valued
environments.  Theorems settle the individual claims.
-/

namespace Palethea

/-! ## Data model (versions.rs) -/

/-- Embedding of `versions.rs::OsRule`: an optional os name, version and arch
condition attached to a rule. -/
structure OsRule where
  name : Option String
  version : Option String
  arch : Option String
deriving DecidableEq, Repr

/-- Embedding of `versions.rs::Rule` (library rules): an action string plus
optional os gate and optional feature map (feature names to booleans). -/
structure LibRule where
  action : String
  os : Option OsRule
  features : Option (List (String × Bool))
deriving DecidableEq, Repr

/-- Embedding of `versions.rs::Artifact`. -/
structure Artifact where
  path : String
  sha1 : String
  size : Int
  url : String
deriving DecidableEq, Repr

/-- Embedding of `versions.rs::LibraryDownloads`.  The `classifiers`
`HashMap<String, Artifact>` is modelled as an association list. -/
structure LibraryDownloads where
  artifact : Option Artifact
  classifiers : Option (List (String × Artifact))
deriving DecidableEq, Repr

/-- Embedding of `versions.rs::ExtractInfo`. -/
structure ExtractInfo where
  exclude : Option (List String)
deriving DecidableEq, Repr

/-- Embedding of `versions.rs::Library`.  The `natives` map (os name to
classifier pattern) is modelled as an association list. -/
structure Library where
  name : String
  downloads : Option LibraryDownloads
  url : Option String
  rules : Option (List LibRule)
  natives : Option (List (String × String))
  extract : Option ExtractInfo
deriving DecidableEq, Repr

/-- Embedding of `versions.rs::DownloadInfo` (client/server download tuples). -/
structure DownloadInfo where
  sha1 : String
  size : Int
  url : String
deriving DecidableEq, Repr

/-- Embedding of `versions.rs::Downloads`. -/
structure Downloads where
  client : DownloadInfo
  server : Option DownloadInfo
deriving DecidableEq, Repr

/-- Embedding of `versions.rs::AssetIndex` (the reference stored in a version
descriptor). -/
structure AssetIndex where
  id : String
  sha1 : String
  size : Int
  url : String
deriving DecidableEq, Repr

/-- Embedding of `versions.rs::JavaVersion`. -/
structure JavaVersion where
  component : String
  major_version : Int
deriving DecidableEq, Repr

/-- Embedding of `versions.rs::Arguments`.  The source stores
`Vec<serde_json::Value>`; for the claims below only plain string entries and
their order matter, so entries are modelled by strings. -/
structure Arguments where
  game : Option (List String)
  jvm : Option (List String)
deriving DecidableEq, Repr

/-- Embedding of `versions.rs::VersionDetails` (the fields the verified
operations read). -/
structure VersionDetails where
  id : String
  version_type : String
  main_class : String
  asset_index : Option AssetIndex
  downloads : Option Downloads
  libraries : List Library
  arguments : Option Arguments
  minecraft_arguments : Option String
  java_version : Option JavaVersion
deriving DecidableEq, Repr

/-- Embedding of `versions.rs::VersionInfo` (the manifest entry fields used by
`download_version`: `id` and `url`). -/
structure VersionInfo where
  id : String
  url : String
deriving DecidableEq, Repr

/-! ## Rule evaluation (versions.rs::should_use_library,
launcher.rs::check_argument_rules) -/

/-- Embedding of `versions.rs::should_use_library`.  The host os name
(`get_os_name()` in the source, a compile-time constant) is passed
explicitly.  A missing rules list means the library is used; otherwise the
rules are folded in order: a rule applies when its os-name condition is
absent or equal to the host os (the source reads only `os.name`), and each
applicable rule overwrites the accumulated result with
`action == "allow"`, starting from `false`. -/
def should_use_library (osName : String) (lib : Library) : Bool :=
  match lib.rules with
  | none => true
  | some rules =>
    rules.foldl (fun acc rule =>
      let applies :=
        match rule.os with
        | none => true
        | some osRule =>
          match osRule.name with
          | none => true
          | some n => n == osName
      if applies then rule.action == "allow" else acc) false

/-- The applicability test used by `should_use_library`: only the os name is
consulted. -/
def lib_rule_applies (osName : String) (rule : LibRule) : Bool :=
  match rule.os with
  | none => true
  | some osRule =>
    match osRule.name with
    | none => true
    | some n => n == osName

/-- Modelled from the spec: "a rule applies iff every specified condition
matches", including `os { name, version, arch }`.  Name and arch conditions
match by equality with the host values; the version condition is likewise
modelled as matching the host os version string.  Used only to compare the
spec's rule semantics with the code's (claim C2). -/
def lib_rule_applies_spec (osName osVersion osArch : String) (rule : LibRule) : Bool :=
  match rule.os with
  | none => true
  | some osRule =>
    (match osRule.name with
     | none => true
     | some n => n == osName) &&
    (match osRule.version with
     | none => true
     | some v => v == osVersion) &&
    (match osRule.arch with
     | none => true
     | some a => a == osArch)

/-- Last-applicable-rule-wins evaluation: the result is `action == "allow"`
for the last rule satisfying `applies`, and `false` (deny) when no rule
applies.  This is the declarative reading of the fold in the source. -/
def evalRulesLastWins (applies : α → Bool) (action : α → String) (rules : List α) : Bool :=
  match (rules.filter applies).getLast? with
  | some r => action r == "allow"
  | none => false

/-- Modelled from the spec: `should_use_library` as the spec describes rule
evaluation, with every specified os condition participating in the match
(claim C2's reading of the code). -/
def should_use_library_spec (osName osVersion osArch : String) (lib : Library) : Bool :=
  match lib.rules with
  | none => true
  | some rules => evalRulesLastWins (lib_rule_applies_spec osName osVersion osArch) LibRule.action rules

/-- The feature keys of an argument rule as read by
`launcher.rs::check_argument_rules`: only the *presence* of each key is
consulted, so each field records whether the key is present (and its json
value, which the source never reads). -/
structure FeatureFlags where
  is_demo_user : Option Bool
  has_custom_resolution : Option Bool
  is_quick_play_singleplayer : Option Bool
  is_quick_play_multiplayer : Option Bool
  is_quick_play_realms : Option Bool
  has_quick_plays_support : Option Bool
deriving DecidableEq, Repr

/-- An argument rule object as read by `check_argument_rules`: `action`
(defaulted to `"allow"` when absent), optional os gate, optional features. -/
structure ArgRule where
  action : Option String
  os : Option OsRule
  features : Option FeatureFlags
deriving DecidableEq, Repr

/-- The applicability computation of `check_argument_rules` for one rule:
`applies` starts `true`; an os gate with a name overwrites it with
`name == os_name`; a features object then overwrites it in source order
(`is_demo_user` present forces `false`, `has_custom_resolution` present
forces the host's custom-resolution flag, any quick-play key present forces
`false`). -/
def arg_rule_applies (osName : String) (hasCustomRes : Bool) (rule : ArgRule) : Bool :=
  let applies := true
  let applies :=
    match rule.os with
    | none => applies
    | some osRule =>
      match osRule.name with
      | none => applies
      | some n => n == osName
  match rule.features with
  | none => applies
  | some f =>
    let applies := if f.is_demo_user.isSome then false else applies
    let applies := if f.has_custom_resolution.isSome then hasCustomRes else applies
    if f.is_quick_play_singleplayer.isSome || f.is_quick_play_multiplayer.isSome ||
       f.is_quick_play_realms.isSome || f.has_quick_plays_support.isSome then false
    else applies

/-- Embedding of `launcher.rs::check_argument_rules`: when the argument
object carries no `rules` key the argument is used; otherwise the rules are
folded in order starting from `false`, each applicable rule overwriting the
result with `action == "allow"` (action defaulting to `"allow"`). -/
def check_argument_rules (rules? : Option (List ArgRule)) (osName : String) (hasCustomRes : Bool) : Bool :=
  match rules? with
  | none => true
  | some arr =>
    arr.foldl (fun result rule =>
      if arg_rule_applies osName hasCustomRes rule then (rule.action.getD "allow") == "allow"
      else result) false

/-! ## Library identity and deduplication (launcher.rs) -/

/-- Split a character list at every occurrence of `sep` (the semantics of
Rust's `str::split` with a one-character pattern): `n` separators yield
`n + 1` pieces, empty pieces included. -/
def splitChar (sep : Char) : List Char → List (List Char)
  | [] => [[]]
  | c :: rest =>
    if c = sep then [] :: splitChar sep rest
    else
      match splitChar sep rest with
      | [] => [[c]]
      | h :: t => (c :: h) :: t

/-- Split a string at every occurrence of `sep` (Rust's `split(sep)`). -/
def splitOnChar (sep : Char) (s : String) : List String :=
  (splitChar sep s.toList).map (fun l => String.mk l)

/-- Embedding of `launcher.rs::get_lib_identity`: split the maven name on
`:`; with four or more parts keep `group:artifact:classifier`
(dropping the version, `parts[2]`), with two or three parts keep
`group:artifact`, otherwise return the name unchanged. -/
def get_lib_identity (name : String) : String :=
  match splitOnChar ':' name with
  | g :: a :: _ :: c :: _ => g ++ ":" ++ a ++ ":" ++ c
  | g :: a :: _ => g ++ ":" ++ a
  | _ => name

/-- Embedding of the loader/vanilla library merge in
`launcher.rs::launch_game` (lines 670-678): start from the loader's library
list and append each vanilla library whose identity is not already present
in the accumulated list. -/
def mergeLibraries (loaderLibs vanillaLibs : List Library) : List Library :=
  vanillaLibs.foldl (fun acc lib =>
    if acc.any (fun l => get_lib_identity l.name == get_lib_identity lib.name) then acc
    else acc ++ [lib]) loaderLibs

/-- Embedding of the classpath deduplication loop in
`launcher.rs::launch_game` (lines 786-795): walk the `(name, path)` pairs in
order, keeping a set of seen identities (modelled as a list) and keeping the
pair only when its identity has not been seen.  The source keeps only the
path of each kept element; the originating name is kept alongside so the
identity of each kept entry can be stated. -/
def dedupClasspath (seen : List String) (acc : List (String × String)) :
    List (String × String) → List (String × String)
  | [] => acc
  | e :: rest =>
    if seen.contains (get_lib_identity e.1) then dedupClasspath seen acc rest
    else dedupClasspath (seen ++ [get_lib_identity e.1]) (acc ++ [e]) rest

/-- The final deduplicated classpath element list of `launch_game` (before
the client JAR is appended): apply `dedupClasspath` from an empty seen set. -/
def final_classpath_elements (elems : List (String × String)) : List (String × String) :=
  dedupClasspath [] [] elems

/-! ## Argument merge (launcher.rs::launch_game lines 681-703) -/

/-- Embedding of the modern-argument merge in `launch_game`: with the vanilla
record's arguments as the base and the loader's as `modArgs`, the loader's
`game` entries are appended after (`Vec::extend`) the vanilla ones when both
are present; likewise for `jvm`.  A missing base list is replaced by the
loader's; a missing base record is replaced wholesale. -/
def merge_arguments (base : Option Arguments) (modArgs : Arguments) : Option Arguments :=
  match base with
  | some b =>
    some
      { game :=
          match modArgs.game, b.game with
          | some mg, some bg => some (bg ++ mg)
          | some mg, none => some mg
          | none, bgOpt => bgOpt
        jvm :=
          match modArgs.jvm, b.jvm with
          | some mj, some bj => some (bj ++ mj)
          | some mj, none => some mj
          | none, bjOpt => bjOpt }
  | none => some modArgs

/-! ## Java selection (launcher.rs::find_java_by_version) -/

/-- Embedding of the selection logic of `launcher.rs::find_java_by_version`
over its gathered candidate list (java path, parsed major version): first
return the first candidate whose major equals the requirement exactly,
otherwise the first candidate whose major is at least the requirement,
otherwise none.  The filesystem probing that produces the candidate list is
environment interaction and is abstracted as the input list. -/
def find_java_by_version (candidates : List (String × Nat)) (requiredMajor : Nat) : Option String :=
  match candidates.find? (fun c => c.2 == requiredMajor) with
  | some c => some c.1
  | none =>
    match candidates.find? (fun c => requiredMajor ≤ c.2) with
    | some c => some c.1
    | none => none

/-! ## Filesystem / network model for the downloader (downloader.rs)

Files on disk are modelled by a partial map from paths (component lists, as
produced by `PathBuf::join`) to contents; contents are abstracted as natural
numbers, with the SHA-1 digest computation abstracted as a function
parameter `hash`.  The network is a partial map from URLs to the bytes a
successful GET returns (`none` models a transport or HTTP failure). -/

/-- A filesystem path as a list of joined components. -/
abbrev FsPath := List String

/-- The filesystem: path to content, `none` meaning the file is absent. -/
abbrev Fs := FsPath → Option Nat

/-- Write (or with `none`, remove) a file. -/
def fsWrite (fs : Fs) (p : FsPath) (c : Option Nat) : Fs :=
  fun q => if q = p then c else fs q

/-- Embedding of `downloader.rs::verify_sha1`: true exactly when the file
exists and its digest equals the expected string.  (I/O read errors, which
the source also maps to `false`, are not modelled.) -/
def verify_sha1 (hash : Nat → String) (fs : Fs) (path : FsPath) (expected : String) : Bool :=
  match fs path with
  | none => false
  | some c => hash c == expected

/-- Embedding of `downloader.rs::download_file`.  First the skip check: with
a non-empty expected digest the download is skipped when `verify_sha1`
passes; with an empty expected digest or no digest it is skipped when the
file merely exists.  Otherwise the bytes are fetched (an unreachable URL
fails the call with the filesystem unchanged), written to `path`, and, when
a non-empty digest was expected, re-verified — on mismatch the freshly
written file is removed and an error returned. -/
def download_file (hash : Nat → String) (net : String → Option Nat) (fs : Fs)
    (url : String) (path : FsPath) (expected : Option String) :
    Fs × Except String Unit :=
  let skip : Bool :=
    match expected with
    | some sha1 => if sha1 ≠ "" then verify_sha1 hash fs path sha1 else (fs path).isSome
    | none => (fs path).isSome
  if skip then (fs, .ok ())
  else
    match net url with
    | none => (fs, .error ("Download failed: " ++ url))
    | some bytes =>
      let fs1 := fsWrite fs path (some bytes)
      match expected with
      | some sha1 =>
        if sha1 ≠ "" && !(verify_sha1 hash fs1 path sha1) then
          (fsWrite fs1 path none, .error "SHA1 verification failed")
        else (fs1, .ok ())
      | none => (fs1, .ok ())

/-- Embedding of `downloader.rs::download_client`: download the client JAR to
`versions/<id>/<id>.jar` against `downloads.client.sha1` (skipped entirely
when the descriptor carries no `downloads`), then persist the descriptor as
`versions/<id>/<id>.json`.  Serialization of the descriptor to bytes is
abstracted by the `serialize` parameter. -/
def download_client (hash : Nat → String) (net : String → Option Nat)
    (serialize : VersionDetails → Nat) (fs : Fs) (vd : VersionDetails) :
    Fs × Except String FsPath :=
  let clientPath : FsPath := ["versions", vd.id, vd.id ++ ".jar"]
  let step1 : Fs × Except String Unit :=
    match vd.downloads with
    | some d => download_file hash net fs d.client.url clientPath (some d.client.sha1)
    | none => (fs, .ok ())
  match step1 with
  | (fs1, .error e) => (fs1, .error e)
  | (fs1, .ok _) =>
    let jsonPath : FsPath := ["versions", vd.id, vd.id ++ ".json"]
    (fsWrite fs1 jsonPath (some (serialize vd)), .ok clientPath)

/-- Replace every occurrence of the character `a` in a string by `b`
(Rust's `str::replace` with one-character pattern and replacement). -/
def replaceChar (a b : Char) (s : String) : String :=
  String.mk (s.toList.map (fun c => if c = a then b else c))

/-- Whether a string ends with the character `c` (Rust's `ends_with('/')`
as used on library base urls). -/
def endsWithChar (c : Char) (s : String) : Bool :=
  s.toList.getLast? == some c

/-- Embedding of `versions.rs::library_name_to_path`: convert a maven
coordinate to `group/…/artifact/version/artifact-version[-classifier].jar`
(names with fewer than three parts are returned unchanged). -/
def library_name_to_path (name : String) : String :=
  match splitOnChar ':' name with
  | g :: a :: v :: rest =>
    let group := replaceChar '.' '/' g
    let base := group ++ "/" ++ a ++ "/" ++ v ++ "/" ++ a ++ "-" ++ v
    let base :=
      match rest with
      | c :: _ => base ++ "-" ++ c
      | [] => base
    base ++ ".jar"
  | _ => name

/-- One queued library/asset download: url, destination path, expected
digest (`""` when none is available). -/
structure DownloadTask where
  url : String
  path : FsPath
  sha1 : String
deriving DecidableEq, Repr

/-- The downloads one loop iteration of
`downloader.rs::download_libraries` queues for a single library: nothing
when `should_use_library` rejects it; otherwise its main artifact and — when
a natives classifier is declared for the host os (after `${arch}`
expansion) — the matching classifier artifact; libraries without explicit
download info fall back to a base url or the Mojang maven, with an empty
expected digest.  Destination paths live under `libraries/`; the
artifact-relative path is kept as one component. -/
def library_download_tasks (osName arch : String) (lib : Library) : List DownloadTask :=
  if !should_use_library osName lib then []
  else
    match lib.downloads with
    | some d =>
      let artifactTasks :=
        match d.artifact with
        | some a => [⟨a.url, ["libraries", a.path], a.sha1⟩]
        | none => []
      let nativeTasks :=
        match lib.natives with
        | none => []
        | some natives =>
          match natives.lookup osName with
          | none => []
          | some classifierKey =>
            match d.classifiers with
            | none => []
            | some classifiers =>
              let actualKey := classifierKey.replace "${arch}" arch
              match classifiers.lookup actualKey with
              | none => []
              | some na => [⟨na.url, ["libraries", na.path], na.sha1⟩]
      artifactTasks ++ nativeTasks
    | none =>
      let pathStr := library_name_to_path lib.name
      match lib.url with
      | some baseUrl =>
        let url := if endsWithChar '/' baseUrl then baseUrl ++ pathStr else baseUrl ++ "/" ++ pathStr
        [⟨url, ["libraries", pathStr], ""⟩]
      | none =>
        [⟨"https://libraries.minecraft.net/" ++ pathStr, ["libraries", pathStr], ""⟩]

/-- Embedding of the task-collection loop of
`downloader.rs::download_libraries`: the per-library tasks pushed in
iteration order. -/
def collect_library_downloads (osName arch : String) (libs : List Library) : List DownloadTask :=
  libs.foldl (fun acc lib => acc ++ library_download_tasks osName arch lib) []

/-- Run a batch of download tasks.  The source fans the tasks out with
bounded concurrency, collects every result and fails with the first error
while completed peers stay on disk; with per-task-disjoint destinations this
is modelled by running the tasks in order, keeping the first error. -/
def run_downloads (hash : Nat → String) (net : String → Option Nat) (fs : Fs)
    (tasks : List DownloadTask) : Fs × Except String Unit :=
  tasks.foldl (fun st t =>
    let r := download_file hash net st.1 t.url t.path (some t.sha1)
    (r.1, match st.2 with
          | .error e => .error e
          | .ok _ => r.2)) (fs, .ok ())

/-- Embedding of `downloader.rs::download_libraries` over the filesystem
model: queue the artifacts of the selected libraries and run them. -/
def download_libraries (hash : Nat → String) (net : String → Option Nat)
    (osName arch : String) (fs : Fs) (vd : VersionDetails) : Fs × Except String Unit :=
  run_downloads hash net fs (collect_library_downloads osName arch vd.libraries)

/-- Embedding of `downloader.rs::download_assets`: a descriptor without an
asset index is a no-op; otherwise the index is downloaded to
`assets/indexes/<id>.json` and each object hash of the parsed index (the
json parse is abstracted by `parseIndex`) is fetched to
`assets/objects/<hash[0..2]>/<hash>`. -/
def download_assets (hash : Nat → String) (net : String → Option Nat)
    (parseIndex : Nat → List String) (fs : Fs) (vd : VersionDetails) :
    Fs × Except String Unit :=
  match vd.asset_index with
  | none => (fs, .ok ())
  | some ai =>
    let indexPath : FsPath := ["assets", "indexes", ai.id ++ ".json"]
    match download_file hash net fs ai.url indexPath (some ai.sha1) with
    | (fs1, .error e) => (fs1, .error e)
    | (fs1, .ok _) =>
      match fs1 indexPath with
      | none => (fs1, .error "Failed to read asset index")
      | some content =>
        let tasks := (parseIndex content).map (fun h =>
          let pre := String.mk (h.toList.take 2)
          DownloadTask.mk ("https://resources.download.minecraft.net/" ++ pre ++ "/" ++ h)
            ["assets", "objects", pre, h] h)
        run_downloads hash net fs1 tasks

/-- Embedding of `downloader.rs::download_version`: resolve the version in
the manifest, fetch its descriptor (abstracted by `detailsOf`, `none`
modelling a fetch/parse failure), then download the client JAR (persisting
the descriptor json), the libraries and the assets in order, failing at the
first error. -/
def download_version (hash : Nat → String) (net : String → Option Nat)
    (serialize : VersionDetails → Nat) (parseIndex : Nat → List String)
    (detailsOf : String → Option VersionDetails) (manifest : List VersionInfo)
    (osName arch : String) (fs : Fs) (versionId : String) :
    Fs × Except String VersionDetails :=
  match manifest.find? (fun v => v.id == versionId) with
  | none => (fs, .error "Version not found")
  | some vi =>
    match detailsOf vi.url with
    | none => (fs, .error "Failed to fetch version details")
    | some vd =>
      match download_client hash net serialize fs vd with
      | (fs1, .error e) => (fs1, .error e)
      | (fs1, .ok _) =>
        match download_libraries hash net osName arch fs1 vd with
        | (fs2, .error e) => (fs2, .error e)
        | (fs2, .ok _) =>
          match download_assets hash net parseIndex fs2 vd with
          | (fs3, .error e) => (fs3, .error e)
          | (fs3, .ok _) => (fs3, .ok vd)

/-! ## Instance store and sessions (instances.rs) -/

/-- Embedding of `instances.rs::Instance` (the fields the verified
operations read or write). -/
structure Instance where
  id : String
  name : String
  last_played : Option String
  playtime_seconds : Nat
  total_launches : Nat
deriving DecidableEq, Repr

/-- Replace the first element satisfying `pred` (the source's
`iter().position()` followed by indexed assignment); `none` when no element
matches. -/
def replaceFirst (pred : α → Bool) (x : α) : List α → Option (List α)
  | [] => none
  | a :: rest =>
    if pred a then some (x :: rest)
    else (replaceFirst pred x rest).map (a :: ·)

/-- Embedding of `instances.rs::get_instance` over the loaded instance
list. -/
def get_instance (insts : List Instance) (instId : String) : Option Instance :=
  insts.find? (fun i => i.id == instId)

/-- Embedding of `instances.rs::update_instance` over the loaded instance
list: replace the entry with the matching id, failing when absent. -/
def update_instance (insts : List Instance) (inst : Instance) : Option (List Instance) :=
  replaceFirst (fun i => i.id == inst.id) inst insts

/-- Embedding of `instances.rs::GameSession`. -/
structure GameSession where
  instance_id : String
  start_time : Nat
  pid : Option Nat
  launch_username : Option String
deriving DecidableEq, Repr

/-- A recovered-session report entry, as returned by
`recover_orphaned_sessions`:
`(instance_id, start_time_or_credited_duration, pid, original_playtime,
launch_username)`. -/
abbrev RecoveredEntry := String × Nat × Option Nat × Nat × Option String

/-- The state threaded through the recovery loop: the instance store, the
sessions found still running, and the report list. -/
structure RecoverState where
  insts : List Instance
  stillRunning : List GameSession
  recovered : List RecoveredEntry
deriving Repr

/-- One iteration of the loop in
`instances.rs::recover_orphaned_sessions`: a session whose pid is alive is
kept; otherwise the elapsed time `now - start_time` (saturating) is credited
to the instance's `playtime_seconds` when it is at most 86 400 s (24 h) and
the instance exists, and nothing is credited past the cap. -/
def recoverStep (isRunning : Nat → Bool) (now : Nat) (st : RecoverState)
    (session : GameSession) : RecoverState :=
  let instId := session.instance_id
  let originalPlaytime :=
    match get_instance st.insts instId with
    | some inst => inst.playtime_seconds
    | none => 0
  let alive :=
    match session.pid with
    | some p => isRunning p
    | none => false
  if alive then
    { st with
      stillRunning := st.stillRunning ++ [session]
      recovered := st.recovered ++
        [(instId, session.start_time, session.pid, originalPlaytime, session.launch_username)] }
  else
    let duration := now - session.start_time
    if duration ≤ 86400 then
      let insts1 :=
        match get_instance st.insts instId with
        | some inst =>
          (update_instance st.insts
            { inst with playtime_seconds := inst.playtime_seconds + duration }).getD st.insts
        | none => st.insts
      { st with
        insts := insts1
        recovered := st.recovered ++
          [(instId, duration, none, originalPlaytime, session.launch_username)] }
    else st

/-- Embedding of `instances.rs::recover_orphaned_sessions`: process every
stored session and replace the session store with the sessions still
running.  (The session-history append of credited sessions is a side log not
modelled here.) -/
def recover_orphaned_sessions (isRunning : Nat → Bool) (now : Nat)
    (insts : List Instance) (sessions : List GameSession) : RecoverState :=
  sessions.foldl (recoverStep isRunning now) ⟨insts, [], []⟩

/-! ## launch_instance (lib.rs) -/

/-- The environment of one launch attempt of `lib.rs::launch_instance`:
whether the running-process map already holds the instance, the outcome of
reading and parsing `versions/<id>/<id>.json`, the outcome of
`launcher::launch_game` (pid on success — every failure inside it, from
downloads through java selection to spawn, happens before the game process
runs), and the wall clock at the attempt. -/
structure LaunchEnv where
  alreadyRunning : Bool
  versionJson : Option VersionDetails
  launchOutcome : Except String Nat
  now : Nat

/-- Embedding of the stats-relevant control flow of
`lib.rs::launch_instance` up to the spawn: refuse when the instance is
unknown or already running; fail when the version json cannot be read;
otherwise persist `last_played := now` and `total_launches += 1` and only
then run `launch_game`, whose failure is returned with the stats update
already written. -/
def launch_instance (env : LaunchEnv) (insts : List Instance) (instId : String) :
    List Instance × Except String String :=
  match get_instance insts instId with
  | none => (insts, .error "Instance not found")
  | some inst =>
    if env.alreadyRunning then (insts, .error "This instance is already running")
    else
      match env.versionJson with
      | none => (insts, .error "Failed to read version JSON")
      | some _ =>
        let updated :=
          { inst with
            last_played := some (toString env.now)
            total_launches := inst.total_launches + 1 }
        match update_instance insts updated with
        | none => (insts, .error "Instance not found")
        | some insts1 =>
          match env.launchOutcome with
          | .error e => (insts1, .error e)
          | .ok _pid => (insts1, .ok "Launched")

/-! ## Account store (auth.rs) -/

/-- Embedding of `auth.rs::SavedAccount` (the fields the store operations
read). -/
structure SavedAccount where
  username : String
  uuid : String
  is_microsoft : Bool
deriving DecidableEq, Repr

/-- Embedding of `auth.rs::AccountsData`. -/
structure AccountsData where
  accounts : List SavedAccount
  active_account : Option String
deriving DecidableEq, Repr

/-- Embedding of `auth.rs::add_account`: replace the existing account with
the same uuid (Microsoft) or the same username (offline), else append; then
activate the added account when it is now the only one or no account was
active. -/
def add_account (data : AccountsData) (account : SavedAccount) : AccountsData :=
  let pred : SavedAccount → Bool :=
    if account.is_microsoft then fun a => a.uuid == account.uuid && a.is_microsoft
    else fun a => a.username == account.username && !a.is_microsoft
  let accounts1 :=
    match replaceFirst pred account data.accounts with
    | some l => l
    | none => data.accounts ++ [account]
  let active1 :=
    if accounts1.length == 1 || data.active_account.isNone then some account.username
    else data.active_account
  ⟨accounts1, active1⟩

/-- Embedding of `auth.rs::remove_account`: drop every account with the
username; when the active pointer named it, re-point to the first remaining
account (or clear it). -/
def remove_account (data : AccountsData) (username : String) : AccountsData :=
  let accounts1 := data.accounts.filter (fun a => a.username ≠ username)
  let active1 :=
    if data.active_account == some username then accounts1.head?.map (·.username)
    else data.active_account
  ⟨accounts1, active1⟩

/-- Embedding of `auth.rs::set_active_account`: when an account with the
username exists, point the active pointer at it; otherwise fail without
changing the store. -/
def set_active_account (data : AccountsData) (username : String) :
    Except String AccountsData :=
  if data.accounts.any (fun a => a.username == username) then
    .ok ⟨data.accounts, some username⟩
  else .error "Account not found"

/-- The account-store invariant of claim C10: the active pointer always
names a present account. -/
def accountsInv (data : AccountsData) : Prop :=
  ∀ u, data.active_account = some u → ∃ a ∈ data.accounts, a.username = u

end Palethea

namespace Palethea

/-- Folding rules left with an applicable-rule-overwrites accumulator equals
taking the last applicable rule (or the start value when none applies). -/
theorem foldl_rules_eq (applies : α → Bool) (act : α → String) :
    ∀ (rules : List α) (b : Bool),
      rules.foldl (fun acc r => if applies r then act r == "allow" else acc) b
        = (match (rules.filter applies).getLast? with
           | some r => act r == "allow"
           | none => b) := by
  intro rules
  induction rules using List.reverseRecOn with
  | nil => intro b; simp
  | append_singleton l r ih =>
    intro b
    rw [List.foldl_append, List.filter_append]
    simp only [List.foldl]
    by_cases h : applies r = true
    · simp [h, List.getLast?_append]
    · simp only [Bool.not_eq_true] at h
      simp [h, ih]

end Palethea

namespace Palethea

/-- C2 (amended): In both rule evaluators the result is the action of the
last applicable rule with deny as default; a library rule applies iff its
os-name condition (the only os condition the code reads) is absent or
matches the host, and an argument rule's applicability additionally follows
the fixed feature policy of `arg_rule_applies`. -/
theorem C2_rule_evaluation_last_applicable (osName : String) (hasCustomRes : Bool)
    (lib : Library) (argRules : Option (List ArgRule)) :
    (should_use_library osName lib =
      match lib.rules with
      | none => true
      | some rules => evalRulesLastWins (lib_rule_applies osName) LibRule.action rules) ∧
    (check_argument_rules argRules osName hasCustomRes =
      match argRules with
      | none => true
      | some rules =>
        evalRulesLastWins (arg_rule_applies osName hasCustomRes)
          (fun r => r.action.getD "allow") rules) := by
  constructor
  · cases h : lib.rules with
    | none => simp [should_use_library, h]
    | some rules =>
      simp only [should_use_library, h, evalRulesLastWins]
      exact foldl_rules_eq (lib_rule_applies osName) LibRule.action rules false
  · cases h : argRules with
    | none => simp [check_argument_rules]
    | some rules =>
      simp only [check_argument_rules, evalRulesLastWins]
      exact foldl_rules_eq (arg_rule_applies osName hasCustomRes)
        (fun r => r.action.getD "allow") rules false

/-- C2 counterexample: a rule whose only os condition is `arch: "x86"` does
not match an `x86_64` host, so under the claimed every-condition-matches
semantics the library is excluded (no applicable rule, default deny) — but
the code ignores the arch condition, treats the rule as applicable and
includes the library. -/
theorem C2_counterexample :
    should_use_library "linux"
        ⟨"org.lwjgl:lwjgl:3.3.3", none, none,
          some [⟨"allow", some ⟨none, none, some "x86"⟩, none⟩], none, none⟩ = true ∧
    should_use_library_spec "linux" "6.1" "x86_64"
        ⟨"org.lwjgl:lwjgl:3.3.3", none, none,
          some [⟨"allow", some ⟨none, none, some "x86"⟩, none⟩], none, none⟩ = false :=
  ⟨by decide, by decide⟩

/-- C8 (amended): an absent rules list includes; an *empty* rules list
excludes (no applicable rule, default deny); a single allow rule gated on a
different os excludes; an unconditional allow followed by a deny on the host
os excludes (last applicable rule wins).  Both for libraries and for
rule-bearing arguments. -/
theorem C8_rule_boundary_cases :
    (should_use_library "linux" ⟨"g:a:1", none, none, none, none, none⟩ = true) ∧
    (should_use_library "linux" ⟨"g:a:1", none, none, some [], none, none⟩ = false) ∧
    (should_use_library "linux"
      ⟨"g:a:1", none, none,
        some [⟨"allow", some ⟨some "windows", none, none⟩, none⟩], none, none⟩ = false) ∧
    (should_use_library "linux"
      ⟨"g:a:1", none, none,
        some [⟨"allow", none, none⟩, ⟨"deny", some ⟨some "linux", none, none⟩, none⟩],
        none, none⟩ = false) ∧
    (check_argument_rules none "linux" false = true) ∧
    (check_argument_rules (some []) "linux" false = false) ∧
    (check_argument_rules
      (some [⟨some "allow", some ⟨some "windows", none, none⟩, none⟩]) "linux" false = false) ∧
    (check_argument_rules
      (some [⟨some "allow", none, none⟩, ⟨some "deny", some ⟨some "linux", none, none⟩, none⟩])
      "linux" false = false) := by
  refine ⟨by decide, by decide, by decide, by decide, by decide, by decide, by decide, by decide⟩

/-- C8 counterexample: the claim reads `[]` (an empty rules list) as
include, but an empty rules list leaves the default deny in place and the
library / argument is excluded. -/
theorem C8_counterexample :
    should_use_library "linux" ⟨"g:a:1", none, none, some [], none, none⟩ = false ∧
    check_argument_rules (some []) "linux" false = false :=
  ⟨by decide, by decide⟩

/-- C5 counterexample: merging modern argument lists appends the loader's
entries *after* the vanilla ones (`Vec::extend` on the vanilla base), so
with vanilla game list `["--vanillaGame"]` and loader game list
`["--loaderGame"]` the merged game list is vanilla-first — not the claimed
loader-first concatenation. -/
theorem C5_counterexample :
    merge_arguments (some ⟨some ["--vanillaGame"], some ["-XvanillaJvm"]⟩)
        ⟨some ["--loaderGame"], some ["-XloaderJvm"]⟩
      = some ⟨some ["--vanillaGame", "--loaderGame"], some ["-XvanillaJvm", "-XloaderJvm"]⟩ ∧
    merge_arguments (some ⟨some ["--vanillaGame"], some ["-XvanillaJvm"]⟩)
        ⟨some ["--loaderGame"], some ["-XloaderJvm"]⟩
      ≠ some ⟨some ["--loaderGame", "--vanillaGame"], some ["-XloaderJvm", "-XvanillaJvm"]⟩ :=
  ⟨by decide, by decide⟩

/-- C5 (amended): when both records provide modern argument lists, the
merged `game` and `jvm` lists are each the concatenation with the *vanilla*
entries first and the loader's entries second. -/
theorem C5_argument_merge_order (bg bj mg mj : List String) :
    merge_arguments (some ⟨some bg, some bj⟩) ⟨some mg, some mj⟩
      = some ⟨some (bg ++ mg), some (bj ++ mj)⟩ := rfl

/-- C7: with a required major of 21, version selection never returns a
candidate below 21 (a Java 17 candidate alone yields none), accepts a lone
higher candidate such as 22, and prefers an exact 21 match when one exists. -/
theorem C7_java_selection (cands : List (String × Nat)) (p : String) :
    (find_java_by_version cands 21 = some p → ∃ m, (p, m) ∈ cands ∧ 21 ≤ m) ∧
    ((∃ q, (q, 21) ∈ cands) →
      ∃ q, find_java_by_version cands 21 = some q ∧ (q, 21) ∈ cands) ∧
    (∀ a, find_java_by_version [(a, 17)] 21 = none) ∧
    (∀ a, find_java_by_version [(a, 22)] 21 = some a) := by
  refine ⟨?_, ?_, ?_, ?_⟩
  · intro h
    unfold find_java_by_version at h
    cases hf : cands.find? (fun c => c.2 == 21) with
    | some c =>
      rw [hf] at h
      have hm := List.mem_of_find?_eq_some hf
      have hp := List.find?_some hf
      simp only [beq_iff_eq] at hp
      cases h
      exact ⟨c.2, by simpa using hm, by omega⟩
    | none =>
      rw [hf] at h
      cases hg : cands.find? (fun c => 21 ≤ c.2) with
      | some c =>
        rw [hg] at h
        have hm := List.mem_of_find?_eq_some hg
        have hp := List.find?_some hg
        simp only [decide_eq_true_eq] at hp
        cases h
        exact ⟨c.2, by simpa using hm, hp⟩
      | none => rw [hg] at h; cases h
  · rintro ⟨q, hq⟩
    have : (cands.find? (fun c => c.2 == 21)).isSome := by
      rw [List.find?_isSome]
      exact ⟨(q, 21), hq, by simp⟩
    cases hf : cands.find? (fun c => c.2 == 21) with
    | none => rw [hf] at this; simp at this
    | some c =>
      have hm := List.mem_of_find?_eq_some hf
      have hp := List.find?_some hf
      simp only [beq_iff_eq] at hp
      refine ⟨c.1, ?_, ?_⟩
      · unfold find_java_by_version
        rw [hf]
      · have : c = (c.1, c.2) := rfl
        rw [this, hp] at hm
        exact hm
  · intro a; rfl
  · intro a; rfl

end Palethea

namespace Palethea

/-- Reference form of the dedup loop: keep each element whose identity was
not seen before it, threading the seen set. -/
def keepFirsts (seen : List String) : List (String × String) → List (String × String)
  | [] => []
  | e :: rest =>
    if seen.contains (get_lib_identity e.1) then keepFirsts seen rest
    else e :: keepFirsts (seen ++ [get_lib_identity e.1]) rest

/-- The accumulator form of the dedup loop agrees with `keepFirsts`. -/
theorem dedupClasspath_eq_keepFirsts :
    ∀ (xs : List (String × String)) (seen : List String) (acc : List (String × String)),
      dedupClasspath seen acc xs = acc ++ keepFirsts seen xs := by
  intro xs
  induction xs with
  | nil => intro seen acc; simp [dedupClasspath, keepFirsts]
  | cons e rest ih =>
    intro seen acc
    show (if seen.contains (get_lib_identity e.1) then dedupClasspath seen acc rest
          else dedupClasspath (seen ++ [get_lib_identity e.1]) (acc ++ [e]) rest)
        = acc ++ (if seen.contains (get_lib_identity e.1) then keepFirsts seen rest
          else e :: keepFirsts (seen ++ [get_lib_identity e.1]) rest)
    by_cases h : seen.contains (get_lib_identity e.1) = true
    · rw [if_pos h, if_pos h, ih]
    · rw [if_neg h, if_neg h, ih, List.append_assoc]
      rfl

/-- The identities kept by `keepFirsts` avoid the seen set and are pairwise
distinct. -/
theorem keepFirsts_ids_nodup :
    ∀ (xs : List (String × String)) (seen : List String),
      (∀ i ∈ (keepFirsts seen xs).map (fun e => get_lib_identity e.1), i ∉ seen) ∧
      ((keepFirsts seen xs).map (fun e => get_lib_identity e.1)).Nodup := by
  intro xs
  induction xs with
  | nil => intro seen; simp [keepFirsts]
  | cons e rest ih =>
    intro seen
    by_cases h : seen.contains (get_lib_identity e.1) = true
    · have hunfold : keepFirsts seen (e :: rest) = keepFirsts seen rest := by
        rw [keepFirsts, if_pos h]
      rw [hunfold]
      exact ih seen
    · have hx : get_lib_identity e.1 ∉ seen := fun hmem => h ((List.elem_iff).2 hmem)
      have hunfold : keepFirsts seen (e :: rest)
          = e :: keepFirsts (seen ++ [get_lib_identity e.1]) rest := by
        rw [keepFirsts, if_neg h]
      rw [hunfold]
      obtain ⟨hrest, hnodup⟩ := ih (seen ++ [get_lib_identity e.1])
      constructor
      · intro i hi
        rcases List.mem_cons.1 hi with hi | hi
        · subst hi; exact hx
        · intro hmem
          exact hrest i hi (by simp [hmem])
      · rw [List.map_cons, List.nodup_cons]
        exact ⟨fun hmem => hrest _ hmem (by simp), hnodup⟩

/-- Every element kept by `keepFirsts` is the first element of the input
with its identity. -/
theorem keepFirsts_first :
    ∀ (xs : List (String × String)) (seen : List String) (e : String × String),
      e ∈ keepFirsts seen xs →
        get_lib_identity e.1 ∉ seen ∧
        xs.find? (fun x => get_lib_identity x.1 == get_lib_identity e.1) = some e := by
  intro xs
  induction xs with
  | nil => intro seen e he; simp [keepFirsts] at he
  | cons x rest ih =>
    intro seen e he
    by_cases h : seen.contains (get_lib_identity x.1) = true
    · rw [keepFirsts, if_pos h] at he
      obtain ⟨hnot, hfind⟩ := ih seen e he
      refine ⟨hnot, ?_⟩
      rw [List.find?_cons_of_neg, hfind]
      intro hbeq
      simp only [beq_iff_eq] at hbeq
      exact hnot (by rw [← hbeq]; exact (List.elem_iff).1 h)
    · have hx : get_lib_identity x.1 ∉ seen := fun hmem => h ((List.elem_iff).2 hmem)
      rw [keepFirsts, if_neg h] at he
      rcases List.mem_cons.1 he with he | he
      · subst he
        exact ⟨hx, List.find?_cons_of_pos _ (by simp)⟩
      · obtain ⟨hnot, hfind⟩ := ih _ e he
        have hne : get_lib_identity e.1 ≠ get_lib_identity x.1 := by
          intro heq
          exact hnot (by simp [heq])
        have hnot' : get_lib_identity e.1 ∉ seen := fun hmem => hnot (by simp [hmem])
        refine ⟨hnot', ?_⟩
        rw [List.find?_cons_of_neg, hfind]
        simp only [beq_iff_eq]
        exact fun hbeq => hne hbeq.symm

/-- The loader/vanilla merge only ever appends to the accumulated list, so
the loader's entries form the front of the merge. -/
theorem mergeLibraries_loader_first :
    ∀ (vanillaLibs loaderLibs : List Library),
      ∃ rest, mergeLibraries loaderLibs vanillaLibs = loaderLibs ++ rest := by
  have key : ∀ (l : List Library) (acc : List Library),
      ∃ rest, l.foldl (fun acc lib =>
        if acc.any (fun x => get_lib_identity x.name == get_lib_identity lib.name) then acc
        else acc ++ [lib]) acc = acc ++ rest := by
    intro l
    induction l with
    | nil => intro acc; exact ⟨[], by simp⟩
    | cons x rest ih =>
      intro acc
      rw [List.foldl_cons]
      by_cases h : acc.any (fun y => get_lib_identity y.name == get_lib_identity x.name) = true
      · rw [if_pos h]
        exact ih acc
      · rw [if_neg h]
        obtain ⟨r, hr⟩ := ih (acc ++ [x])
        refine ⟨x :: r, ?_⟩
        rw [hr, List.append_assoc]
        rfl
  intro vanillaLibs loaderLibs
  exact key vanillaLibs loaderLibs

/-- When the accumulated identities are pairwise distinct they remain so
through the merge loop. -/
theorem mergeLibraries_nodup :
    ∀ (vanillaLibs loaderLibs : List Library),
      ((loaderLibs.map fun l => get_lib_identity l.name).Nodup) →
      ((mergeLibraries loaderLibs vanillaLibs).map fun l => get_lib_identity l.name).Nodup := by
  have key : ∀ (l : List Library) (acc : List Library),
      ((acc.map fun x => get_lib_identity x.name).Nodup) →
      (((l.foldl (fun acc lib =>
        if acc.any (fun x => get_lib_identity x.name == get_lib_identity lib.name) then acc
        else acc ++ [lib]) acc).map fun x => get_lib_identity x.name).Nodup) := by
    intro l
    induction l with
    | nil => intro acc h; simpa using h
    | cons x rest ih =>
      intro acc h
      rw [List.foldl_cons]
      by_cases hx : acc.any (fun y => get_lib_identity y.name == get_lib_identity x.name) = true
      · rw [if_pos hx]
        exact ih acc h
      · rw [if_neg hx]
        refine ih (acc ++ [x]) ?_
        have hforall := (List.any_eq_false).1 (Bool.not_eq_true _ ▸ hx)
        rw [List.map_append, List.nodup_append]
        refine ⟨h, by simp, ?_⟩
        intro i hi hj
        simp only [List.map_cons, List.map_nil, List.mem_singleton] at hj
        simp only [List.mem_map] at hi
        obtain ⟨y, hy, hiy⟩ := hi
        exact hforall y hy (by simp [hiy, hj])
  intro vanillaLibs loaderLibs h
  exact key vanillaLibs loaderLibs h

end Palethea

namespace Palethea

/-- C1: library identity is `group:artifact[:classifier]` (version
stripped, `get_lib_identity`); after the classpath dedup loop of
`launch_game` no two kept entries share an identity and each kept entry is
the first occurrence of its identity; the loader/vanilla merge keeps the
loader's entries first and, when the loader's own identities are distinct,
produces a duplicate-free merged list. -/
theorem C1_library_dedup_identity (xs : List (String × String))
    (loaderLibs vanillaLibs : List Library) :
    (((final_classpath_elements xs).map fun e => get_lib_identity e.1).Nodup) ∧
    (∀ e ∈ final_classpath_elements xs,
      xs.find? (fun x => get_lib_identity x.1 == get_lib_identity e.1) = some e) ∧
    (∃ rest, mergeLibraries loaderLibs vanillaLibs = loaderLibs ++ rest) ∧
    (((loaderLibs.map fun l => get_lib_identity l.name).Nodup) →
      ((mergeLibraries loaderLibs vanillaLibs).map fun l => get_lib_identity l.name).Nodup) := by
  have hfce : final_classpath_elements xs = keepFirsts [] xs := by
    rw [final_classpath_elements, dedupClasspath_eq_keepFirsts, List.nil_append]
  refine ⟨?_, ?_, mergeLibraries_loader_first _ _, mergeLibraries_nodup _ _⟩
  · rw [hfce]
    exact (keepFirsts_ids_nodup xs []).2
  · intro e he
    rw [hfce] at he
    exact (keepFirsts_first xs [] e he).2

/-- C1 witness: evaluating the dedup and merge on two ASM entries that share
the identity `org.ow2.asm:asm`. -/
theorem C1_library_dedup_identity_witness :
    (((final_classpath_elements
        [("org.ow2.asm:asm:9.6", "p1"), ("org.ow2.asm:asm:9.5", "p2")]).map
          fun e => get_lib_identity e.1).Nodup) ∧
    ([("org.ow2.asm:asm:9.6", "p1"), ("org.ow2.asm:asm:9.5", "p2")].find?
        (fun x => get_lib_identity x.1
          == get_lib_identity (("org.ow2.asm:asm:9.6", "p1") : String × String).1)
      = some ("org.ow2.asm:asm:9.6", "p1")) ∧
    ((mergeLibraries [⟨"org.ow2.asm:asm:9.6", none, none, none, none, none⟩]
        [⟨"org.ow2.asm:asm:9.5", none, none, none, none, none⟩]).map
          fun l => get_lib_identity l.name).Nodup :=
  ⟨(C1_library_dedup_identity
      [("org.ow2.asm:asm:9.6", "p1"), ("org.ow2.asm:asm:9.5", "p2")] [] []).1,
   (C1_library_dedup_identity
      [("org.ow2.asm:asm:9.6", "p1"), ("org.ow2.asm:asm:9.5", "p2")] [] []).2.1
      ("org.ow2.asm:asm:9.6", "p1") (by decide),
   (C1_library_dedup_identity [("org.ow2.asm:asm:9.6", "p1")]
      [⟨"org.ow2.asm:asm:9.6", none, none, none, none, none⟩]
      [⟨"org.ow2.asm:asm:9.5", none, none, none, none, none⟩]).2.2.2 (by decide)⟩

/-- C7 witness: evaluating the selection on a candidate list holding a Java
22 and a Java 21. -/
theorem C7_java_selection_witness :
    (∃ m, ("b", m) ∈ [("a", 22), ("b", 21)] ∧ 21 ≤ m) ∧
    (∃ q, find_java_by_version [("a", 22), ("b", 21)] 21 = some q ∧
      (q, 21) ∈ [("a", 22), ("b", 21)]) :=
  ⟨(C7_java_selection [("a", 22), ("b", 21)] "b").1 (by decide),
   (C7_java_selection [("a", 22), ("b", 21)] "b").2.1 ⟨"b", by decide⟩⟩

end Palethea

namespace Palethea

/-- C6: the hash check succeeds exactly when the path exists and its digest
equals the expected one; an empty expected digest makes `download_file` skip
when the file exists; a non-empty expected digest is re-verified whenever
`download_file` succeeds (a mismatched existing file is never silently
accepted); and a downloaded file failing verification is deleted before the
error is returned. -/
theorem C6_hash_verification (hash : Nat → String) (net : String → Option Nat)
    (fs : Fs) (url : String) (path : FsPath) :
    (∀ e, verify_sha1 hash fs path e = true ↔ ∃ c, fs path = some c ∧ hash c = e) ∧
    ((fs path).isSome = true → download_file hash net fs url path (some "") = (fs, .ok ())) ∧
    (∀ sha1, sha1 ≠ "" → (download_file hash net fs url path (some sha1)).2 = .ok () →
      verify_sha1 hash (download_file hash net fs url path (some sha1)).1 path sha1 = true) ∧
    (∀ sha1 c, sha1 ≠ "" → verify_sha1 hash fs path sha1 = false → net url = some c →
      hash c ≠ sha1 →
      (download_file hash net fs url path (some sha1)).1 path = none ∧
      (download_file hash net fs url path (some sha1)).2
        = .error "SHA1 verification failed") := by
  refine ⟨?_, ?_, ?_, ?_⟩
  · intro e
    unfold verify_sha1
    cases h : fs path with
    | none => simp
    | some c => simp [beq_iff_eq]
  · intro h
    unfold download_file
    simp [h]
  · intro sha1 hne
    unfold download_file
    simp only [ne_eq, hne, not_false_eq_true, if_true, ite_not]
    by_cases hv : verify_sha1 hash fs path sha1 = true
    · simp [hv]
    · simp only [Bool.not_eq_true] at hv
      simp only [hv, Bool.false_eq_true, if_false]
      cases hn : net url with
      | none => intro hcontra; simp at hcontra
      | some bytes =>
        simp only
        by_cases hv1 : verify_sha1 hash (fsWrite fs path (some bytes)) path sha1 = true
        · simp [hv1]
        · simp only [Bool.not_eq_true] at hv1
          simp [hne, hv1]
  · intro sha1 c hne hv hn hcne
    unfold download_file
    have hv1 : verify_sha1 hash (fsWrite fs path (some c)) path sha1 = false := by
      unfold verify_sha1 fsWrite
      simp [beq_eq_false_iff_ne, hcne]
    simp [hne, hv, hn, hv1, fsWrite]

/-- C6 witness: with digest function `toString`, an empty store and a
network returning content `5`, the four properties evaluate at the expected
concrete inputs. -/
theorem C6_hash_verification_witness :
    (verify_sha1 (fun c => toString c) (fsWrite (fun _ => none) ["p"] (some 9)) ["p"] "9" = true
      ↔ ∃ c, fsWrite (fun _ => none) ["p"] (some 9) ["p"] = some c ∧ toString c = "9") ∧
    (download_file (fun c => toString c) (fun _ => some 5)
        (fsWrite (fun _ => none) ["p"] (some 9)) "u" ["p"] (some "")
      = (fsWrite (fun _ => none) ["p"] (some 9), .ok ())) ∧
    (verify_sha1 (fun c => toString c)
        (download_file (fun c => toString c) (fun _ => some 5) (fun _ => none) "u" ["p"]
          (some "5")).1 ["p"] "5" = true) ∧
    ((download_file (fun c => toString c) (fun _ => some 5) (fun _ => none) "u" ["p"]
        (some "7")).1 ["p"] = none ∧
     (download_file (fun c => toString c) (fun _ => some 5) (fun _ => none) "u" ["p"]
        (some "7")).2 = .error "SHA1 verification failed") :=
  ⟨(C6_hash_verification (fun c => toString c) (fun _ => some 5)
      (fsWrite (fun _ => none) ["p"] (some 9)) "u" ["p"]).1 "9",
   (C6_hash_verification (fun c => toString c) (fun _ => some 5)
      (fsWrite (fun _ => none) ["p"] (some 9)) "u" ["p"]).2.1 (by decide),
   (C6_hash_verification (fun c => toString c) (fun _ => some 5)
      (fun _ => none) "u" ["p"]).2.2.1 "5" (by decide) (by rfl),
   (C6_hash_verification (fun c => toString c) (fun _ => some 5)
      (fun _ => none) "u" ["p"]).2.2.2 "7" 5 (by decide) (by decide) (by rfl) (by decide)⟩

end Palethea

namespace Palethea

/-- `download_file` touches the filesystem only at its destination path. -/
theorem download_file_fst_preserves (hash : Nat → String) (net : String → Option Nat)
    (fs : Fs) (url : String) (path : FsPath) (expected : Option String)
    (q : FsPath) (hq : q ≠ path) :
    (download_file hash net fs url path expected).1 q = fs q := by
  unfold download_file
  dsimp only
  split
  · rfl
  · split
    · rfl
    · split
      · split
        · simp [fsWrite, hq]
        · simp [fsWrite, hq]
      · simp [fsWrite, hq]

/-- A successful `download_file` with a non-empty expected digest leaves a
file verifying against that digest. -/
theorem download_file_ok_verifies (hash : Nat → String) (net : String → Option Nat)
    (fs : Fs) (url : String) (path : FsPath) :
    ∀ sha1, sha1 ≠ "" → (download_file hash net fs url path (some sha1)).2 = .ok () →
      verify_sha1 hash (download_file hash net fs url path (some sha1)).1 path sha1 = true := by
  intro sha1 hne
  unfold download_file
  simp only [ne_eq, hne, not_false_eq_true, if_true, ite_not]
  by_cases hv : verify_sha1 hash fs path sha1 = true
  · simp [hv]
  · simp only [Bool.not_eq_true] at hv
    simp only [hv, Bool.false_eq_true, if_false]
    cases hn : net url with
    | none => intro hcontra; simp at hcontra
    | some bytes =>
      simp only
      by_cases hv1 : verify_sha1 hash (fsWrite fs path (some bytes)) path sha1 = true
      · simp [hv1]
      · simp only [Bool.not_eq_true] at hv1
        simp [hne, hv1]

/-- The download fan-out leaves every path outside the task destinations
unchanged. -/
theorem run_downloads_preserves (hash : Nat → String) (net : String → Option Nat) :
    ∀ (tasks : List DownloadTask) (st : Fs × Except String Unit) (q : FsPath),
      (∀ t ∈ tasks, q ≠ t.path) →
      (tasks.foldl (fun st t =>
        let r := download_file hash net st.1 t.url t.path (some t.sha1)
        (r.1, match st.2 with
              | .error e => .error e
              | .ok _ => r.2)) st).1 q = st.1 q := by
  intro tasks
  induction tasks with
  | nil => intro st q _; rfl
  | cons t rest ih =>
    intro st q h
    rw [List.foldl_cons]
    rw [ih _ q (fun t' ht' => h t' (List.mem_cons_of_mem _ ht'))]
    exact download_file_fst_preserves hash net st.1 t.url t.path (some t.sha1) q
      (h t (List.mem_cons_self _ _))

/-- Every library download task targets a path under `libraries/`. -/
theorem library_download_tasks_paths (osName arch : String) (lib : Library) :
    ∀ t ∈ library_download_tasks osName arch lib, ∃ r, t.path = "libraries" :: r := by
  intro t ht
  unfold library_download_tasks at ht
  split at ht
  · simp at ht
  · split at ht
    · dsimp only at ht
      simp only [List.mem_append] at ht
      rcases ht with ht | ht
      · split at ht
        · simp only [List.mem_singleton] at ht
          subst ht
          exact ⟨_, rfl⟩
        · simp at ht
      · split at ht
        · simp at ht
        · split at ht
          · simp at ht
          · split at ht
            · simp at ht
            · split at ht
              · simp at ht
              · simp only [List.mem_singleton] at ht
                subst ht
                exact ⟨_, rfl⟩
    · dsimp only at ht
      split at ht
      · simp only [List.mem_singleton] at ht
        subst ht
        exact ⟨_, rfl⟩
      · simp only [List.mem_singleton] at ht
        subst ht
        exact ⟨_, rfl⟩

/-- Every collected library task targets a path under `libraries/`. -/
theorem collect_library_downloads_paths (osName arch : String) (libs : List Library) :
    ∀ t ∈ collect_library_downloads osName arch libs, ∃ r, t.path = "libraries" :: r := by
  have key : ∀ (l : List Library) (acc : List DownloadTask),
      (∀ t ∈ acc, ∃ r, t.path = "libraries" :: r) →
      ∀ t ∈ l.foldl (fun acc lib => acc ++ library_download_tasks osName arch lib) acc,
        ∃ r, t.path = "libraries" :: r := by
    intro l
    induction l with
    | nil => intro acc h; simpa using h
    | cons lib rest ih =>
      intro acc h
      rw [List.foldl_cons]
      refine ih _ ?_
      intro t ht
      rcases List.mem_append.1 ht with ht | ht
      · exact h t ht
      · exact library_download_tasks_paths osName arch lib t ht
  intro t ht
  exact key libs [] (by simp) t ht

/-- `verify_sha1` depends only on the file at the checked path. -/
theorem verify_sha1_congr (hash : Nat → String) (fs₁ fs₂ : Fs) (path : FsPath)
    (e : String) (h : fs₁ path = fs₂ path) :
    verify_sha1 hash fs₁ path e = verify_sha1 hash fs₂ path e := by
  unfold verify_sha1
  rw [h]

/-- The asset phase touches only paths outside `assets/`. -/
theorem download_assets_preserves (hash : Nat → String) (net : String → Option Nat)
    (parseIndex : Nat → List String) (fs : Fs) (vd : VersionDetails) (q : FsPath)
    (hq : ∀ r, q ≠ "assets" :: r) :
    (download_assets hash net parseIndex fs vd).1 q = fs q := by
  unfold download_assets
  cases hai : vd.asset_index with
  | none => rfl
  | some ai =>
    dsimp only
    rcases hdf : download_file hash net fs ai.url ["assets", "indexes", ai.id ++ ".json"]
        (some ai.sha1) with ⟨fs1, r1⟩
    have hfs1 : fs1 q = fs q := by
      have := download_file_fst_preserves hash net fs ai.url
        ["assets", "indexes", ai.id ++ ".json"] (some ai.sha1) q (hq _)
      rw [hdf] at this
      exact this
    cases r1 with
    | error e => exact hfs1
    | ok u =>
      dsimp only
      cases hidx : fs1 ["assets", "indexes", ai.id ++ ".json"] with
      | none => exact hfs1
      | some content =>
        dsimp only
        have hrun := run_downloads_preserves hash net
          ((parseIndex content).map (fun h =>
            let pre := String.mk (h.toList.take 2)
            DownloadTask.mk ("https://resources.download.minecraft.net/" ++ pre ++ "/" ++ h)
              ["assets", "objects", pre, h] h))
          (fs1, .ok ()) q ?_
        · rw [show run_downloads hash net fs1 ((parseIndex content).map (fun h =>
              let pre := String.mk (h.toList.take 2)
              DownloadTask.mk ("https://resources.download.minecraft.net/" ++ pre ++ "/" ++ h)
                ["assets", "objects", pre, h] h)) = ((parseIndex content).map (fun h =>
              let pre := String.mk (h.toList.take 2)
              DownloadTask.mk ("https://resources.download.minecraft.net/" ++ pre ++ "/" ++ h)
                ["assets", "objects", pre, h] h)).foldl (fun st t =>
                let r := download_file hash net st.1 t.url t.path (some t.sha1)
                (r.1, match st.2 with
                      | .error e => .error e
                      | .ok _ => r.2)) (fs1, .ok ()) from rfl]
          rw [hrun]
          exact hfs1
        · intro t ht
          simp only [List.mem_map] at ht
          obtain ⟨hsh, _, rfl⟩ := ht
          exact hq _

/-- After a successful `download_client` with a non-empty client digest, the
client JAR verifies against it and the descriptor json is on disk. -/
theorem download_client_post (hash : Nat → String) (net : String → Option Nat)
    (serialize : VersionDetails → Nat) (fs : Fs) (vd : VersionDetails)
    (fs' : Fs) (p : FsPath) (d : Downloads)
    (h : download_client hash net serialize fs vd = (fs', .ok p))
    (hd : vd.downloads = some d) (hs : d.client.sha1 ≠ "") :
    verify_sha1 hash fs' ["versions", vd.id, vd.id ++ ".jar"] d.client.sha1 = true ∧
    fs' ["versions", vd.id, vd.id ++ ".json"] = some (serialize vd) := by
  have hne : vd.id ++ ".jar" ≠ vd.id ++ ".json" := by
    intro hcon
    have hlen := congrArg String.length hcon
    rw [String.length_append, String.length_append] at hlen
    have h4 : (".jar" : String).length = 4 := by decide
    have h5 : (".json" : String).length = 5 := by decide
    omega
  unfold download_client at h
  rw [hd] at h
  dsimp only at h
  rcases hdf : download_file hash net fs d.client.url ["versions", vd.id, vd.id ++ ".jar"]
      (some d.client.sha1) with ⟨fs1, r1⟩
  rw [hdf] at h
  cases r1 with
  | error e => simp at h
  | ok u =>
    dsimp only at h
    injection h with h1 _
    subst h1
    constructor
    · have hpres : fsWrite fs1 ["versions", vd.id, vd.id ++ ".json"] (some (serialize vd))
          ["versions", vd.id, vd.id ++ ".jar"] = fs1 ["versions", vd.id, vd.id ++ ".jar"] := by
        unfold fsWrite
        rw [if_neg]
        intro hcon
        injection hcon with _ hcon
        injection hcon with _ hcon
        injection hcon with hcon _
        exact hne hcon
      rw [verify_sha1_congr hash _ fs1 _ _ hpres]
      have hok : (download_file hash net fs d.client.url ["versions", vd.id, vd.id ++ ".jar"]
          (some d.client.sha1)).2 = .ok () := by
        rw [hdf]
      have hver := download_file_ok_verifies hash net fs d.client.url
        ["versions", vd.id, vd.id ++ ".jar"] d.client.sha1 hs hok
      rw [hdf] at hver
      exact hver
    · unfold fsWrite
      rw [if_pos rfl]

end Palethea

namespace Palethea

/-- C3: when `download_version` succeeds, the client JAR at
`versions/<id>/<id>.jar` verifies against the descriptor's
`downloads.client.sha1` (for descriptors carrying a client download with a
non-empty digest, as Mojang descriptors do) and the descriptor json has been
persisted at `versions/<id>/<id>.json`. -/
theorem C3_download_version_postcondition (hash : Nat → String)
    (net : String → Option Nat) (serialize : VersionDetails → Nat)
    (parseIndex : Nat → List String) (detailsOf : String → Option VersionDetails)
    (manifest : List VersionInfo) (osName arch : String) (fs : Fs) (versionId : String)
    (fs' : Fs) (vd : VersionDetails) (d : Downloads)
    (h : download_version hash net serialize parseIndex detailsOf manifest osName arch
          fs versionId = (fs', .ok vd))
    (hd : vd.downloads = some d) (hs : d.client.sha1 ≠ "") :
    verify_sha1 hash fs' ["versions", vd.id, vd.id ++ ".jar"] d.client.sha1 = true ∧
    (fs' ["versions", vd.id, vd.id ++ ".json"]).isSome = true := by
  unfold download_version at h
  cases hm : manifest.find? (fun v => v.id == versionId) with
  | none => rw [hm] at h; simp at h
  | some vi =>
    rw [hm] at h
    dsimp only at h
    cases hdet : detailsOf vi.url with
    | none => rw [hdet] at h; simp at h
    | some vd0 =>
      rw [hdet] at h
      dsimp only at h
      rcases hc : download_client hash net serialize fs vd0 with ⟨fs1, r1⟩
      rw [hc] at h
      cases r1 with
      | error e => simp at h
      | ok p =>
        dsimp only at h
        rcases hl : download_libraries hash net osName arch fs1 vd0 with ⟨fs2, r2⟩
        rw [hl] at h
        cases r2 with
        | error e => simp at h
        | ok u2 =>
          dsimp only at h
          rcases ha : download_assets hash net parseIndex fs2 vd0 with ⟨fs3, r3⟩
          rw [ha] at h
          cases r3 with
          | error e => simp at h
          | ok u3 =>
            dsimp only at h
            injection h with h1 h2
            injection h2 with h2
            subst h1
            subst h2
            have hjarAssets : fs3 ["versions", vd0.id, vd0.id ++ ".jar"]
                = fs2 ["versions", vd0.id, vd0.id ++ ".jar"] := by
              have := download_assets_preserves hash net parseIndex fs2 vd0
                ["versions", vd0.id, vd0.id ++ ".jar"]
                (fun r hcon => by injection hcon with hcon _; exact absurd hcon (by decide))
              rw [ha] at this
              exact this
            have hjsonAssets : fs3 ["versions", vd0.id, vd0.id ++ ".json"]
                = fs2 ["versions", vd0.id, vd0.id ++ ".json"] := by
              have := download_assets_preserves hash net parseIndex fs2 vd0
                ["versions", vd0.id, vd0.id ++ ".json"]
                (fun r hcon => by injection hcon with hcon _; exact absurd hcon (by decide))
              rw [ha] at this
              exact this
            have hlibPreserve : ∀ rest : List String,
                fs2 ("versions" :: rest) = fs1 ("versions" :: rest) := by
              intro rest
              have hr := run_downloads_preserves hash net
                (collect_library_downloads osName arch vd0.libraries) (fs1, .ok ())
                ("versions" :: rest) ?_
              · have heq : download_libraries hash net osName arch fs1 vd0
                    = ((collect_library_downloads osName arch vd0.libraries).foldl (fun st t =>
                        let r := download_file hash net st.1 t.url t.path (some t.sha1)
                        (r.1, match st.2 with
                              | .error e => .error e
                              | .ok _ => r.2)) (fs1, .ok ())) := rfl
                rw [heq] at hl
                rw [hl] at hr
                simp only at hr
                exact hr
              · intro t ht
                obtain ⟨r, hrp⟩ := collect_library_downloads_paths osName arch vd0.libraries t ht
                rw [hrp]
                intro hcon
                injection hcon with hcon _
                exact absurd hcon (by decide)
            obtain ⟨hver, hjson⟩ := download_client_post hash net serialize fs vd0 fs1 p d hc hd hs
            constructor
            · rw [verify_sha1_congr hash fs3 fs1 _ _
                (by rw [hjarAssets]; exact hlibPreserve [vd0.id, vd0.id ++ ".jar"])]
              exact hver
            · rw [hjsonAssets, hlibPreserve [vd0.id, vd0.id ++ ".json"], hjson]
              rfl

/-- C3 witness: a one-version manifest whose descriptor carries a client
download with digest `"5"`, a network always returning content `5`, digest
function `toString`, and an empty store. -/
theorem C3_download_version_postcondition_witness :
    verify_sha1 (fun c => toString c)
      (download_version (fun c => toString c) (fun _ => some 5) (fun _ => 0) (fun _ => [])
        (fun u => if u = "vurl" then
            some ⟨"1.20.4", "release", "mc", none, some ⟨⟨"5", 1, "jarurl"⟩, none⟩,
              [], none, none, none⟩
          else none)
        [⟨"1.20.4", "vurl"⟩] "linux" "64" (fun _ => none) "1.20.4").1
      ["versions", "1.20.4", "1.20.4" ++ ".jar"] "5" = true ∧
    ((download_version (fun c => toString c) (fun _ => some 5) (fun _ => 0) (fun _ => [])
        (fun u => if u = "vurl" then
            some ⟨"1.20.4", "release", "mc", none, some ⟨⟨"5", 1, "jarurl"⟩, none⟩,
              [], none, none, none⟩
          else none)
        [⟨"1.20.4", "vurl"⟩] "linux" "64" (fun _ => none) "1.20.4").1
      ["versions", "1.20.4", "1.20.4" ++ ".json"]).isSome = true := by
  have h := C3_download_version_postcondition (fun c => toString c) (fun _ => some 5)
    (fun _ => 0) (fun _ => [])
    (fun u => if u = "vurl" then
        some ⟨"1.20.4", "release", "mc", none, some ⟨⟨"5", 1, "jarurl"⟩, none⟩,
          [], none, none, none⟩
      else none)
    [⟨"1.20.4", "vurl"⟩] "linux" "64" (fun _ => none) "1.20.4"
    (download_version (fun c => toString c) (fun _ => some 5) (fun _ => 0) (fun _ => [])
      (fun u => if u = "vurl" then
          some ⟨"1.20.4", "release", "mc", none, some ⟨⟨"5", 1, "jarurl"⟩, none⟩,
            [], none, none, none⟩
        else none)
      [⟨"1.20.4", "vurl"⟩] "linux" "64" (fun _ => none) "1.20.4").1
    ⟨"1.20.4", "release", "mc", none, some ⟨⟨"5", 1, "jarurl"⟩, none⟩, [], none, none, none⟩
    ⟨⟨"5", 1, "jarurl"⟩, none⟩ (by rfl) (by rfl) (by decide)
  exact h

end Palethea

namespace Palethea

/-- A found instance carries the looked-up id. -/
theorem get_instance_id (insts : List Instance) (x : String) (inst : Instance)
    (h : get_instance insts x = some inst) : inst.id = x := by
  have := List.find?_some h
  simpa [beq_iff_eq] using this

/-- Lookup at a matching head. -/
theorem get_instance_cons_pos (a : Instance) (insts : List Instance) (x : String)
    (h : (a.id == x) = true) : get_instance (a :: insts) x = some a := by
  unfold get_instance
  exact List.find?_cons_of_pos _ h

/-- Lookup skips a non-matching head. -/
theorem get_instance_cons_neg (a : Instance) (insts : List Instance) (x : String)
    (h : ¬(a.id == x) = true) : get_instance (a :: insts) x = get_instance insts x := by
  unfold get_instance
  exact List.find?_cons_of_neg _ h

/-- Updating an instance that is present succeeds, makes the updated record
the one found under its id, and leaves every other id untouched. -/
theorem update_instance_spec :
    ∀ (insts : List Instance) (inst inst' : Instance),
      get_instance insts inst'.id = some inst →
      ∃ l, update_instance insts inst' = some l ∧
        get_instance l inst'.id = some inst' ∧
        ∀ x, x ≠ inst'.id → get_instance l x = get_instance insts x := by
  intro insts
  induction insts with
  | nil => intro inst inst' h; simp [get_instance] at h
  | cons a rest ih =>
    intro inst inst' h
    by_cases pa : (a.id == inst'.id) = true
    · refine ⟨inst' :: rest, ?_, ?_, ?_⟩
      · unfold update_instance replaceFirst
        rw [if_pos pa]
      · exact get_instance_cons_pos _ _ _ (by simp)
      · intro x hx
        have haid : a.id = inst'.id := by simpa [beq_iff_eq] using pa
        rw [get_instance_cons_neg _ _ _
              (by simp only [beq_iff_eq]; exact fun hcon => hx hcon.symm),
            get_instance_cons_neg _ _ _
              (by simp only [beq_iff_eq, haid]; exact fun hcon => hx hcon.symm)]
    · have h' : get_instance rest inst'.id = some inst := by
        rwa [get_instance_cons_neg _ _ _ pa] at h
      obtain ⟨l', hrep, hg, hother⟩ := ih inst inst' h'
      refine ⟨a :: l', ?_, ?_, ?_⟩
      · unfold update_instance replaceFirst
        rw [if_neg pa]
        unfold update_instance at hrep
        rw [hrep]
        rfl
      · rw [get_instance_cons_neg _ _ _ pa]
        exact hg
      · intro x hx
        by_cases px : (a.id == x) = true
        · rw [get_instance_cons_pos _ _ _ px, get_instance_cons_pos _ _ _ px]
        · rw [get_instance_cons_neg _ _ _ px, get_instance_cons_neg _ _ _ px]
          exact hother x hx

/-- A successful `update_instance` leaves every other id untouched. -/
theorem update_instance_other :
    ∀ (insts : List Instance) (inst' : Instance) (l : List Instance),
      update_instance insts inst' = some l →
      ∀ x, x ≠ inst'.id → get_instance l x = get_instance insts x := by
  intro insts
  induction insts with
  | nil => intro inst' l h; simp [update_instance, replaceFirst] at h
  | cons a rest ih =>
    intro inst' l h x hx
    by_cases pa : (a.id == inst'.id) = true
    · unfold update_instance replaceFirst at h
      rw [if_pos pa] at h
      injection h with h
      subst h
      have haid : a.id = inst'.id := by simpa [beq_iff_eq] using pa
      rw [get_instance_cons_neg _ _ _
            (by simp only [beq_iff_eq]; exact fun hcon => hx hcon.symm),
          get_instance_cons_neg _ _ _
            (by simp only [beq_iff_eq, haid]; exact fun hcon => hx hcon.symm)]
    · unfold update_instance replaceFirst at h
      rw [if_neg pa] at h
      cases hrep : replaceFirst (fun i => i.id == inst'.id) inst' rest with
      | none => rw [hrep] at h; simp at h
      | some l' =>
        rw [hrep] at h
        have h2 : some (a :: l') = some l := by simpa using h
        injection h2 with h2
        subst h2
        by_cases px : (a.id == x) = true
        · rw [get_instance_cons_pos _ _ _ px, get_instance_cons_pos _ _ _ px]
        · rw [get_instance_cons_neg _ _ _ px, get_instance_cons_neg _ _ _ px]
          exact ih inst' l' hrep x hx

/-- Whether a stored session's process is still alive. -/
def sessionAlive (isRunning : Nat → Bool) (s : GameSession) : Bool :=
  match s.pid with
  | some p => isRunning p
  | none => false

/-- One recovery step keeps the still-running list unchanged except for
appending a live session. -/
theorem recoverStep_still (isRunning : Nat → Bool) (now : Nat) (st : RecoverState)
    (s : GameSession) :
    (recoverStep isRunning now st s).stillRunning
      = if sessionAlive isRunning s then st.stillRunning ++ [s] else st.stillRunning := by
  unfold recoverStep sessionAlive
  dsimp only
  by_cases ha : (match s.pid with
    | some p => isRunning p
    | none => false) = true
  · rw [if_pos ha, if_pos ha]
  · rw [if_neg ha, if_neg ha]
    by_cases hd : now - s.start_time ≤ 86400
    · rw [if_pos hd]
    · rw [if_neg hd]

/-- One recovery step touches the instance store only at the session's
instance id. -/
theorem recoverStep_insts_other (isRunning : Nat → Bool) (now : Nat) (st : RecoverState)
    (s : GameSession) (x : String) (hx : s.instance_id ≠ x) :
    get_instance (recoverStep isRunning now st s).insts x = get_instance st.insts x := by
  unfold recoverStep
  dsimp only
  by_cases ha : (match s.pid with
    | some p => isRunning p
    | none => false) = true
  · rw [if_pos ha]
  · rw [if_neg ha]
    by_cases hd : now - s.start_time ≤ 86400
    · rw [if_pos hd]
      dsimp only
      cases hg : get_instance st.insts s.instance_id with
      | none => rfl
      | some inst =>
        dsimp only
        cases hu : update_instance st.insts
            { inst with playtime_seconds := inst.playtime_seconds + (now - s.start_time) } with
        | none => rfl
        | some l =>
          simp only [Option.getD_some]
          refine update_instance_other st.insts _ l hu x ?_
          have hid : inst.id = s.instance_id := get_instance_id _ _ _ hg
          simp only [hid]
          exact fun hcon => hx hcon.symm
    · rw [if_neg hd]

/-- The recovery fold leaves instances of ids outside the processed
sessions untouched. -/
theorem recover_fold_insts_other (isRunning : Nat → Bool) (now : Nat) :
    ∀ (sessions : List GameSession) (st : RecoverState) (x : String),
      (∀ s ∈ sessions, s.instance_id ≠ x) →
      get_instance (sessions.foldl (recoverStep isRunning now) st).insts x
        = get_instance st.insts x := by
  intro sessions
  induction sessions with
  | nil => intro st x _; rfl
  | cons s rest ih =>
    intro st x h
    rw [List.foldl_cons]
    rw [ih _ x (fun t ht => h t (List.mem_cons_of_mem _ ht))]
    exact recoverStep_insts_other isRunning now st s x (h s (List.mem_cons_self _ _))

/-- The recovery fold keeps exactly the live sessions, in order, appended to
the still-running accumulator. -/
theorem recover_fold_still (isRunning : Nat → Bool) (now : Nat) :
    ∀ (sessions : List GameSession) (st : RecoverState),
      (sessions.foldl (recoverStep isRunning now) st).stillRunning
        = st.stillRunning ++ sessions.filter (sessionAlive isRunning) := by
  intro sessions
  induction sessions with
  | nil => intro st; simp
  | cons s rest ih =>
    intro st
    rw [List.foldl_cons, ih, recoverStep_still]
    by_cases ha : sessionAlive isRunning s = true
    · rw [if_pos ha, List.filter_cons_of_pos ha, List.append_assoc]
      rfl
    · rw [if_neg ha, List.filter_cons_of_neg (by simpa using ha)]

end Palethea

namespace Palethea

/-- Processing a dead session credits the saturated elapsed time to its
instance exactly when it is within the 24-hour cap. -/
theorem recoverStep_dead (isRunning : Nat → Bool) (now : Nat) (st : RecoverState)
    (s : GameSession) (inst : Instance)
    (halive : sessionAlive isRunning s = false)
    (hg : get_instance st.insts s.instance_id = some inst) :
    get_instance (recoverStep isRunning now st s).insts s.instance_id
      = some { inst with playtime_seconds := inst.playtime_seconds +
          (if now - s.start_time ≤ 86400 then now - s.start_time else 0) } := by
  have hid : inst.id = s.instance_id := get_instance_id _ _ _ hg
  unfold recoverStep
  dsimp only
  rw [if_neg (by simpa [sessionAlive] using halive)]
  by_cases hd : now - s.start_time ≤ 86400
  · rw [if_pos hd]
    dsimp only
    rw [hg]
    dsimp only
    have hget2 : get_instance st.insts
        ({ inst with playtime_seconds :=
            inst.playtime_seconds + (now - s.start_time) } : Instance).id = some inst := by
      show get_instance _ inst.id = some inst
      rw [hid]
      exact hg
    obtain ⟨l, hup, hgets, -⟩ := update_instance_spec _ inst
      { inst with playtime_seconds := inst.playtime_seconds + (now - s.start_time) } hget2
    rw [hup, Option.getD_some, if_pos hd]
    rw [← hid]
    exact hgets
  · rw [if_neg hd, if_neg hd]
    rw [hg]
    obtain ⟨iid, inm, ilp, ipt, itl⟩ := inst
    simp

/-- C4: during crash recovery, a stored session whose process is not alive
is credited `now - start_time` exactly when that interval is within the
24-hour cap (nothing is credited past the cap), and its entry is cleared
from the session store in every case. -/
theorem C4_crash_recovery_credit (isRunning : Nat → Bool) (now : Nat)
    (insts : List Instance) (sessions : List GameSession) (s : GameSession) (inst : Instance)
    (hnodup : (sessions.map GameSession.instance_id).Nodup)
    (hmem : s ∈ sessions)
    (hdead : ∀ p, s.pid = some p → isRunning p = false)
    (hinst : get_instance insts s.instance_id = some inst) :
    get_instance (recover_orphaned_sessions isRunning now insts sessions).insts s.instance_id
      = some { inst with playtime_seconds := inst.playtime_seconds +
          (if now - s.start_time ≤ 86400 then now - s.start_time else 0) } ∧
    ∀ t ∈ (recover_orphaned_sessions isRunning now insts sessions).stillRunning,
      t.instance_id ≠ s.instance_id := by
  have halive : sessionAlive isRunning s = false := by
    unfold sessionAlive
    cases hp : s.pid with
    | none => rfl
    | some p => exact hdead p hp
  have hid : inst.id = s.instance_id := get_instance_id _ _ _ hinst
  constructor
  · obtain ⟨l1, l2, hsplit⟩ := List.append_of_mem hmem
    subst hsplit
    have hmapn := hnodup
    rw [List.map_append, List.map_cons, List.nodup_append] at hmapn
    obtain ⟨hn1, hn2, hdisj⟩ := hmapn
    have hl1 : ∀ t ∈ l1, t.instance_id ≠ s.instance_id := by
      intro t ht hcon
      exact hdisj (List.mem_map_of_mem _ ht) (by simp [hcon])
    have hl2 : ∀ t ∈ l2, t.instance_id ≠ s.instance_id := by
      intro t ht hcon
      rw [List.nodup_cons] at hn2
      exact hn2.1 (by rw [← hcon]; exact List.mem_map_of_mem _ ht)
    unfold recover_orphaned_sessions
    rw [List.foldl_append, List.foldl_cons]
    have hst1 : get_instance (l1.foldl (recoverStep isRunning now)
        ⟨insts, [], []⟩).insts s.instance_id = some inst := by
      rw [recover_fold_insts_other isRunning now l1 _ _ hl1]
      exact hinst
    have hstep : get_instance (recoverStep isRunning now
        (l1.foldl (recoverStep isRunning now) ⟨insts, [], []⟩) s).insts s.instance_id
        = some { inst with playtime_seconds := inst.playtime_seconds +
            (if now - s.start_time ≤ 86400 then now - s.start_time else 0) } :=
      recoverStep_dead isRunning now _ s inst halive hst1
    rw [recover_fold_insts_other isRunning now l2 _ _ hl2]
    exact hstep
  · intro t ht hcon
    have hstill := recover_fold_still isRunning now sessions ⟨insts, [], []⟩
    unfold recover_orphaned_sessions at ht
    rw [hstill, List.nil_append] at ht
    have htmem := List.mem_of_mem_filter ht
    have htalive := List.of_mem_filter ht
    have : t = s := List.inj_on_of_nodup_map hnodup htmem hmem hcon
    subst this
    rw [halive] at htalive
    cases htalive

/-- C4 witness: one stored session 25 hours old (start 10000, now 100000)
with no live pid: the instance keeps playtime 100 (credited nothing) and the
session store is emptied; the hypotheses are discharged on the concrete
store. -/
theorem C4_crash_recovery_credit_witness :
    get_instance (recover_orphaned_sessions (fun _ => false) 100000
        [⟨"i1", "Inst", none, 100, 3⟩] [⟨"i1", 10000, none, none⟩]).insts "i1"
      = some { (⟨"i1", "Inst", none, 100, 3⟩ : Instance) with
          playtime_seconds := 100 +
            (if 100000 - 10000 ≤ 86400 then 100000 - 10000 else 0) } ∧
    ∀ t ∈ (recover_orphaned_sessions (fun _ => false) 100000
        [⟨"i1", "Inst", none, 100, 3⟩] [⟨"i1", 10000, none, none⟩]).stillRunning,
      t.instance_id ≠ "i1" :=
  C4_crash_recovery_credit (fun _ => false) 100000
    [⟨"i1", "Inst", none, 100, 3⟩] [⟨"i1", 10000, none, none⟩]
    ⟨"i1", 10000, none, none⟩ ⟨"i1", "Inst", none, 100, 3⟩
    (by decide) (by decide) (fun p hp => by cases hp) (by decide)

end Palethea

namespace Palethea

/-- C9 (amended): a launch attempt that fails never changes
`playtime_seconds`; failures before the version descriptor is read (already
running, unreadable json) leave the instance list untouched; but a failure
inside `launch_game` — downloads, java selection or spawn, all still in the
Preparing phase — happens after the stats update, so it returns the error
with `total_launches` already incremented and `last_played` already set. -/
theorem C9_preparing_failure_stats (env : LaunchEnv) (insts : List Instance)
    (instId : String) (inst : Instance)
    (hget : get_instance insts instId = some inst) :
    (∀ e, (launch_instance env insts instId).2 = .error e →
      (get_instance (launch_instance env insts instId).1 instId).map Instance.playtime_seconds
        = some inst.playtime_seconds) ∧
    (env.alreadyRunning = true ∨ env.versionJson = none →
      (launch_instance env insts instId).1 = insts) ∧
    (env.alreadyRunning = false → ∀ vd, env.versionJson = some vd →
      ∀ e, env.launchOutcome = .error e →
        (launch_instance env insts instId).2 = .error e ∧
        get_instance (launch_instance env insts instId).1 instId =
          some { inst with last_played := some (toString env.now),
                           total_launches := inst.total_launches + 1 }) := by
  have hid : inst.id = instId := get_instance_id _ _ _ hget
  have hupd : ∀ vd, env.versionJson = some vd → env.alreadyRunning = false →
      ∃ l, launch_instance env insts instId =
        (l, match env.launchOutcome with
            | .error e => .error e
            | .ok _ => .ok "Launched") ∧
        get_instance l instId =
          some { inst with last_played := some (toString env.now),
                           total_launches := inst.total_launches + 1 } := by
    intro vd hvj hr
    have hget2 : get_instance insts
        ({ inst with last_played := some (toString env.now),
                     total_launches := inst.total_launches + 1 } : Instance).id = some inst := by
      show get_instance insts inst.id = some inst
      rw [hid]
      exact hget
    obtain ⟨l, hup, hgets, -⟩ := update_instance_spec insts inst
      { inst with last_played := some (toString env.now),
                  total_launches := inst.total_launches + 1 } hget2
    refine ⟨l, ?_, ?_⟩
    · unfold launch_instance
      rw [hget]
      dsimp only
      rw [if_neg (by simp [hr]), hvj]
      dsimp only
      rw [hup]
      dsimp only
      cases env.launchOutcome with
      | error e => rfl
      | ok p => rfl
    · rw [← hid]
      exact hgets
  refine ⟨?_, ?_, ?_⟩
  · intro e he
    by_cases hr : env.alreadyRunning = true
    · have hfst : launch_instance env insts instId =
          (insts, .error "This instance is already running") := by
        unfold launch_instance
        rw [hget]
        dsimp only
        rw [if_pos hr]
      rw [hfst, hget]
      rfl
    · simp only [Bool.not_eq_true] at hr
      cases hvj : env.versionJson with
      | none =>
        have hfst : launch_instance env insts instId =
            (insts, .error "Failed to read version JSON") := by
          unfold launch_instance
          rw [hget]
          dsimp only
          rw [if_neg (by simp [hr]), hvj]
        rw [hfst, hget]
        rfl
      | some vd =>
        obtain ⟨l, hli, hgets⟩ := hupd vd hvj hr
        rw [hli, hgets]
        rfl
  · intro h
    rcases h with hr | hvj
    · have hfst : launch_instance env insts instId =
          (insts, .error "This instance is already running") := by
        unfold launch_instance
        rw [hget]
        dsimp only
        rw [if_pos hr]
      rw [hfst]
    · by_cases hr : env.alreadyRunning = true
      · have hfst : launch_instance env insts instId =
            (insts, .error "This instance is already running") := by
          unfold launch_instance
          rw [hget]
          dsimp only
          rw [if_pos hr]
        rw [hfst]
      · have hfst : launch_instance env insts instId =
            (insts, .error "Failed to read version JSON") := by
          unfold launch_instance
          rw [hget]
          dsimp only
          rw [if_neg hr, hvj]
        rw [hfst]
  · intro hr vd hvj e hlo
    obtain ⟨l, hli, hgets⟩ := hupd vd hvj hr
    rw [hlo] at hli
    rw [hli]
    exact ⟨rfl, hgets⟩

/-- C9 counterexample: a failure inside `launch_game` (after the
already-running check, before the process spawns — e.g. "Java not found")
returns an error, yet the instance's `total_launches` has been bumped from
5 to 6 and `last_played` set, contradicting the claim that Preparing
failures leave the stats unchanged. -/
theorem C9_counterexample :
    (launch_instance
        ⟨false, some ⟨"1.20.4", "release", "mc", none, none, [], none, none, none⟩,
          .error "Java not found", 1000⟩
        [⟨"i1", "Inst", none, 0, 5⟩] "i1").2 = .error "Java not found" ∧
    (get_instance (launch_instance
        ⟨false, some ⟨"1.20.4", "release", "mc", none, none, [], none, none, none⟩,
          .error "Java not found", 1000⟩
        [⟨"i1", "Inst", none, 0, 5⟩] "i1").1 "i1").map Instance.total_launches = some 6 ∧
    some 6 ≠ some 5 :=
  ⟨rfl, by decide, by decide⟩

/-- C9 witness: applying the amended theorem at the counterexample's
concrete input. -/
theorem C9_preparing_failure_stats_witness :
    (launch_instance
        ⟨false, some ⟨"1.20.4", "release", "mc", none, none, [], none, none, none⟩,
          .error "Java not found", 1000⟩
        [⟨"i1", "Inst", none, 0, 5⟩] "i1").2 = .error "Java not found" ∧
    get_instance (launch_instance
        ⟨false, some ⟨"1.20.4", "release", "mc", none, none, [], none, none, none⟩,
          .error "Java not found", 1000⟩
        [⟨"i1", "Inst", none, 0, 5⟩] "i1").1 "i1" =
      some { (⟨"i1", "Inst", none, 0, 5⟩ : Instance) with
              last_played := some (toString 1000), total_launches := 5 + 1 } :=
  (C9_preparing_failure_stats
      ⟨false, some ⟨"1.20.4", "release", "mc", none, none, [], none, none, none⟩,
        .error "Java not found", 1000⟩
      [⟨"i1", "Inst", none, 0, 5⟩] "i1" ⟨"i1", "Inst", none, 0, 5⟩ (by decide)).2.2
    rfl ⟨"1.20.4", "release", "mc", none, none, [], none, none, none⟩ rfl
    "Java not found" rfl

end Palethea

namespace Palethea

/-- The replacement, when it succeeds, contains the new element. -/
theorem replaceFirst_mem_self :
    ∀ (l l' : List α) (p : α → Bool) (x : α),
      replaceFirst p x l = some l' → x ∈ l' := by
  intro l
  induction l with
  | nil => intro l' p x h; simp [replaceFirst] at h
  | cons a rest ih =>
    intro l' p x h
    unfold replaceFirst at h
    by_cases pa : p a = true
    · rw [if_pos pa] at h
      injection h with h
      subst h
      exact List.mem_cons_self _ _
    · rw [if_neg pa] at h
      cases hrep : replaceFirst p x rest with
      | none => rw [hrep] at h; simp at h
      | some l'' =>
        rw [hrep] at h
        have h2 : some (a :: l'') = some l' := by simpa using h
        injection h2 with h2
        subst h2
        exact List.mem_cons_of_mem _ (ih l'' p x hrep)

/-- Every original element either survives a replacement or satisfied the
replacement predicate. -/
theorem replaceFirst_mem_or :
    ∀ (l l' : List α) (p : α → Bool) (x : α),
      replaceFirst p x l = some l' → ∀ a ∈ l, a ∈ l' ∨ p a = true := by
  intro l
  induction l with
  | nil => intro l' p x h; simp [replaceFirst] at h
  | cons b rest ih =>
    intro l' p x h a ha
    unfold replaceFirst at h
    by_cases pb : p b = true
    · rw [if_pos pb] at h
      injection h with h
      subst h
      rcases List.mem_cons.1 ha with ha | ha
      · subst ha; exact Or.inr pb
      · exact Or.inl (List.mem_cons_of_mem _ ha)
    · rw [if_neg pb] at h
      cases hrep : replaceFirst p x rest with
      | none => rw [hrep] at h; simp at h
      | some l'' =>
        rw [hrep] at h
        have h2 : some (b :: l'') = some l' := by simpa using h
        injection h2 with h2
        subst h2
        rcases List.mem_cons.1 ha with ha | ha
        · subst ha; exact Or.inl (List.mem_cons_self _ _)
        · rcases ih l'' p x hrep a ha with hin | hp
          · exact Or.inl (List.mem_cons_of_mem _ hin)
          · exact Or.inr hp

/-- C10 (amended): the active-pointer invariant is preserved by
`remove_account` and by `set_active_account` (which fails without change on
an unknown username), and by `add_account` provided the account it replaces
(if any) carries the same username as the new one; `add_account` activates
the added account whenever no account was active. -/
theorem C10_account_store_invariant (data : AccountsData) (account : SavedAccount)
    (username : String) :
    (accountsInv data →
      (∀ a ∈ data.accounts,
        (if account.is_microsoft then a.uuid == account.uuid && a.is_microsoft
         else a.username == account.username && !a.is_microsoft) = true →
        a.username = account.username) →
      accountsInv (add_account data account)) ∧
    (accountsInv data → accountsInv (remove_account data username)) ∧
    ((∀ a ∈ data.accounts, a.username ≠ username) →
      set_active_account data username = .error "Account not found") ∧
    (∀ d', set_active_account data username = .ok d' →
      accountsInv d' ∧ d'.active_account = some username) ∧
    (data.active_account = none →
      (add_account data account).active_account = some account.username) := by
  refine ⟨?_, ?_, ?_, ?_, ?_⟩
  · intro hinv hsame u hu
    unfold add_account at hu ⊢
    dsimp only at hu ⊢
    cases hrep : replaceFirst
        (if account.is_microsoft then fun a => a.uuid == account.uuid && a.is_microsoft
         else fun a => a.username == account.username && !a.is_microsoft)
        account data.accounts with
    | none =>
      rw [hrep] at hu
      dsimp only at hu ⊢
      by_cases hcond : ((data.accounts ++ [account]).length == 1
          || data.active_account.isNone) = true
      · rw [if_pos hcond] at hu
        injection hu with hu
        subst hu
        exact ⟨account, by simp, rfl⟩
      · rw [if_neg hcond] at hu
        obtain ⟨a, ha, hau⟩ := hinv u hu
        exact ⟨a, by simp [ha], hau⟩
    | some l =>
      rw [hrep] at hu
      dsimp only at hu ⊢
      by_cases hcond : (l.length == 1 || data.active_account.isNone) = true
      · rw [if_pos hcond] at hu
        injection hu with hu
        subst hu
        exact ⟨account, replaceFirst_mem_self _ _ _ _ hrep, rfl⟩
      · rw [if_neg hcond] at hu
        obtain ⟨a, ha, hau⟩ := hinv u hu
        rcases replaceFirst_mem_or _ _ _ _ hrep a ha with hin | hp
        · exact ⟨a, hin, hau⟩
        · refine ⟨account, replaceFirst_mem_self _ _ _ _ hrep, ?_⟩
          rw [← hau]
          refine (hsame a ha ?_).symm
          by_cases hm : account.is_microsoft = true
          · rw [if_pos hm]
            rw [if_pos hm] at hp
            exact hp
          · rw [if_neg hm]
            rw [if_neg hm] at hp
            exact hp
  · intro hinv u hu
    unfold remove_account at hu ⊢
    dsimp only at hu ⊢
    by_cases hact : (data.active_account == some username) = true
    · rw [if_pos hact] at hu
      rcases hh : (data.accounts.filter (fun a => a.username ≠ username)).head? with _ | ⟨a⟩
      · rw [hh] at hu
        exact absurd hu (by simp)
      · rw [hh] at hu
        have h2 : some a.username = some u := by simpa using hu
        injection h2 with h2
        exact ⟨a, List.mem_of_mem_head? hh, h2⟩
    · rw [if_neg hact] at hu
      obtain ⟨a, ha, hau⟩ := hinv u hu
      have hune : u ≠ username := by
        intro hcon
        subst hcon
        rw [hu] at hact
        simp at hact
      refine ⟨a, ?_, hau⟩
      rw [List.mem_filter]
      refine ⟨ha, ?_⟩
      simp only [decide_eq_true_eq]
      rw [hau]
      exact hune
  · intro hnone
    unfold set_active_account
    rw [if_neg ?_]
    intro hcon
    rw [List.any_eq_true] at hcon
    obtain ⟨a, ha, hau⟩ := hcon
    exact hnone a ha (by simpa using hau)
  · intro d' hd'
    unfold set_active_account at hd'
    by_cases hany : (data.accounts.any fun a => a.username == username) = true
    · rw [if_pos hany] at hd'
      injection hd' with hd'
      subst hd'
      constructor
      · intro u hu
        simp only at hu
        injection hu with hu
        subst hu
        rw [List.any_eq_true] at hany
        obtain ⟨a, ha, hau⟩ := hany
        exact ⟨a, ha, by simpa using hau⟩
      · rfl
    · rw [if_neg hany] at hd'
      simp at hd'
  · intro hnone
    unfold add_account
    dsimp only
    rw [if_pos (by simp [hnone])]

end Palethea

namespace Palethea

/-- C10 counterexample: replacing a Microsoft account (matched by uuid `X`)
whose username changed from `Alice` to `Alicia`, in a store where `Alice`
is the active account and a second account exists, leaves
`active_account = some "Alice"` although no account with username `Alice`
remains: `add_account` does not maintain the claimed invariant. -/
theorem C10_counterexample :
    (add_account ⟨[⟨"Alice", "X", true⟩, ⟨"Bob", "Y", true⟩], some "Alice"⟩
        ⟨"Alicia", "X", true⟩).active_account = some "Alice" ∧
    (∀ a ∈ (add_account ⟨[⟨"Alice", "X", true⟩, ⟨"Bob", "Y", true⟩], some "Alice"⟩
        ⟨"Alicia", "X", true⟩).accounts, a.username ≠ "Alice") ∧
    ¬ accountsInv (add_account ⟨[⟨"Alice", "X", true⟩, ⟨"Bob", "Y", true⟩], some "Alice"⟩
        ⟨"Alicia", "X", true⟩) := by
  refine ⟨by decide, by decide, ?_⟩
  intro hinv
  obtain ⟨a, ha, hau⟩ := hinv "Alice" (by decide)
  exact (by decide : ∀ a ∈ (add_account
      ⟨[⟨"Alice", "X", true⟩, ⟨"Bob", "Y", true⟩], some "Alice"⟩
      ⟨"Alicia", "X", true⟩).accounts, a.username ≠ "Alice") a ha hau

/-- C10 witness: the amended theorem applied to a store holding the offline
account `Steve` (active), adding the Microsoft account `Alex`, removing
`Steve`, and setting an unknown username. -/
theorem C10_account_store_invariant_witness :
    accountsInv (add_account ⟨[⟨"Steve", "U1", false⟩], some "Steve"⟩ ⟨"Alex", "U2", true⟩) ∧
    accountsInv (remove_account ⟨[⟨"Steve", "U1", false⟩], some "Steve"⟩ "Steve") ∧
    set_active_account ⟨[⟨"Steve", "U1", false⟩], some "Steve"⟩ "Zed"
      = .error "Account not found" := by
  have hinv : accountsInv ⟨[⟨"Steve", "U1", false⟩], some "Steve"⟩ := by
    intro u hu
    injection hu with hu
    exact ⟨⟨"Steve", "U1", false⟩, by simp, hu⟩
  refine ⟨?_, ?_, ?_⟩
  · exact (C10_account_store_invariant ⟨[⟨"Steve", "U1", false⟩], some "Steve"⟩
      ⟨"Alex", "U2", true⟩ "Steve").1 hinv (by decide)
  · exact (C10_account_store_invariant ⟨[⟨"Steve", "U1", false⟩], some "Steve"⟩
      ⟨"Alex", "U2", true⟩ "Steve").2.1 hinv
  · exact (C10_account_store_invariant ⟨[⟨"Steve", "U1", false⟩], some "Steve"⟩
      ⟨"Alex", "U2", true⟩ "Zed").2.2.1 (by decide)

end Palethea
